import Mathlib

/-
Verification development for the whobpyt reduced Wong-Wang model
(src/whobpyt/models/RWW/wong_wang.py).

The Python source is shallowly embedded: torch tensors over one imaging
window become functions out of `Fin` index types into `ℝ`, the nested
integration loops become structural recursion on a flattened fine-step
counter, and every random draw (`torch.randn`) becomes an explicit noise
oracle passed in as an argument, so theorems quantify over all noise
realizations.
-/

/-- torch.nn.ReLU applied pointwise. -/
def relu (x : ℝ) : ℝ := max x 0

noncomputable section

/-- h_tf (wong_wang.py lines 119-128): the neuronal input-output (response)
function.  num = 0.00001 + |a*z - b|, den = 0.00001*d + |1 - exp(-d*(a*z-b))|,
returns num/den. -/
def h_tf (a b d z : ℝ) : ℝ :=
  (0.00001 + |a * z - b|) / (0.00001 * d + |1.0000 - Real.exp (-d * (a * z - b))|)

/-- Python int() applied to a real quotient truncates toward zero. -/
def truncInt (x : ℝ) : ℤ :=
  if 0 ≤ x then ⌊x⌋ else ⌈x⌉

/-- wong_wang.py line 89: self.steps_per_TR = int(tr / step_size). -/
def stepsPerTR (tr step_size : ℝ) : ℤ :=
  truncInt (tr / step_size)

/-- wong_wang.py line 223: sc_mod = exp(gains_con) * sc, elementwise. -/
def scMod {n : ℕ} (G S : Matrix (Fin n) (Fin n) ℝ) : Matrix (Fin n) (Fin n) ℝ :=
  fun i j => Real.exp (G i j) * S i j

/-- 0.5 * (M + Mᵀ), the symmetrization used in wong_wang.py lines 224-225. -/
def symmetrize {n : ℕ} (M : Matrix (Fin n) (Fin n) ℝ) : Matrix (Fin n) (Fin n) ℝ :=
  fun i j => 0.5 * (M i j + M j i)

/-- torch.linalg.norm of a matrix: the Frobenius norm. -/
def frobNorm {n : ℕ} (M : Matrix (Fin n) (Fin n) ℝ) : ℝ :=
  Real.sqrt (∑ i, ∑ j, M i j ^ 2)

/-- wong_wang.py lines 224-225: sc_mod_normalized, the symmetrized modulated
connectivity divided by its Frobenius norm. -/
def scModNormalized {n : ℕ} (G S : Matrix (Fin n) (Fin n) ℝ) : Matrix (Fin n) (Fin n) ℝ :=
  fun i j => symmetrize (scMod G S) i j / frobNorm (symmetrize (scMod G S))

/-- IEEE-aware refinement of the same division: torch float division by a
zero Frobenius norm produces a non-finite value (NaN, since every numerator
is then itself zero); `none` models that non-finite outcome. -/
def scModNormalizedNaN {n : ℕ} (G S : Matrix (Fin n) (Fin n) ℝ) :
    Fin n → Fin n → Option ℝ :=
  fun i j =>
    if frobNorm (symmetrize (scMod G S)) = 0 then none
    else some (symmetrize (scMod G S) i j / frobNorm (symmetrize (scMod G S)))

/-- torch.diag of a vector: the diagonal matrix with those entries. -/
def diagOf {n : ℕ} (d : Fin n → ℝ) : Matrix (Fin n) (Fin n) ℝ :=
  fun i j => if i = j then d i else 0

/-- wong_wang.py lines 220-234: the coupling operator lap_adj handed to the
integrator.  For more than one region it is the normalized matrix, optionally
turned into -diag(rowsum) + A when use_Laplacian is set; for a single region
the code skips the computation and uses the 1x1 zero matrix. -/
def couplingMatrix {n : ℕ} (useLaplacian : Bool) (G S : Matrix (Fin n) (Fin n) ℝ) :
    Matrix (Fin n) (Fin n) ℝ :=
  if 1 < n then
    if useLaplacian then
      -diagOf (fun i => ∑ j, scModNormalized G S i j) + scModNormalized G S
    else scModNormalized G S
  else 0

/-- The scalar parameters read by integration_forward (populated on the model
object by setModelParameters from the ParamsRWW container). -/
structure RWWParams where
  W_E : ℝ
  I_0 : ℝ
  g_EE : ℝ
  g : ℝ
  g_IE : ℝ
  W_I : ℝ
  g_EI : ℝ
  aE : ℝ
  bE : ℝ
  dE : ℝ
  aI : ℝ
  bI : ℝ
  dI : ℝ
  tau_E : ℝ
  gamma_E : ℝ
  tau_I : ℝ
  gamma_I : ℝ
  std_in : ℝ
  std_out : ℝ
  tau_s : ℝ
  tau_f : ℝ
  tau_0 : ℝ
  alpha : ℝ
  rho : ℝ
  V : ℝ
  E0 : ℝ
  k1 : ℝ
  k2 : ℝ
  k3 : ℝ

/-- The four torch.randn draws made inside one fine integration step:
e1/e2 are the per-sample perturbations of the running means, n1/n2 the state
noise of the Euler updates. -/
structure StepNoise (nn ns : ℕ) where
  e1 : Fin nn → Fin ns → ℝ
  e2 : Fin nn → Fin ns → ℝ
  n1 : Fin nn → Fin ns → ℝ
  n2 : Fin nn → Fin ns → ℝ

/-- One forward call's inputs: parameters, coupling operator lap_adj, step
size dt, loop bounds steps_per_TR and TRs_per_window, the noise oracles
(indexed by the flattened fine-step counter, resp. the TR counter for the
observation noise), and the incoming state hx (regions x 6). -/
structure RunCfg (nn ns : ℕ) where
  P : RWWParams
  lap : Matrix (Fin nn) (Fin nn) ℝ
  dt : ℝ
  steps : ℕ
  TRs : ℕ
  noise : ℕ → StepNoise nn ns
  boldNoise : ℕ → Fin nn → ℝ
  hx : Matrix (Fin nn) (Fin 6) ℝ

variable {nn ns : ℕ}

/-- x[x < 0.00001] = 0.00001, the 1e-5 floor used on E/I values. -/
def floor1e5 (x : ℝ) : ℝ := if x < 0.00001 then 0.00001 else x

/-- x[x < 0.001] = 0.001, the 1e-3 floor of the hard-clamp hemodynamic path. -/
def floor1e3 (x : ℝ) : ℝ := if x < 0.001 then 0.001 else x

/-- torch .mean(1): average over the sample dimension. -/
def sampleMean (g : Fin ns → ℝ) : ℝ := (∑ s, g s) / ns

/-- Sampled E copies, smooth branch (line 266): E_mean + 0.02 * randn. -/
def sampleE (Em : Fin nn → ℝ) (z : StepNoise nn ns) : Fin nn → Fin ns → ℝ :=
  fun i s => Em i + 0.02 * z.e1 i s

/-- Sampled E copies, hard branch (line 340): E_mean + 0.001 * randn. -/
def sampleEHard (Em : Fin nn → ℝ) (z : StepNoise nn ns) : Fin nn → Fin ns → ℝ :=
  fun i s => Em i + 0.001 * z.e1 i s

/-- Sampled I copies (lines 267 and 341): I_mean + 0.001 * randn. -/
def sampleI (Im : Fin nn → ℝ) (z : StepNoise nn ns) : Fin nn → Fin ns → ℝ :=
  fun i s => Im i + 0.001 * z.e2 i s

/-- Input current IE (lines 270-272 and 344-346):
tanh(ReLU(W_E*I_0 + (0.001+ReLU(g_EE))*E + g*(lap_adj @ E) - (0.001+ReLU(g_IE))*I)). -/
def inputIE (P : RWWParams) (lap : Matrix (Fin nn) (Fin nn) ℝ)
    (E I : Fin nn → Fin ns → ℝ) : Fin nn → Fin ns → ℝ :=
  fun i s => Real.tanh (relu (P.W_E * P.I_0 + (0.001 + relu P.g_EE) * E i s
    + P.g * (∑ j, lap i j * E j s) - (0.001 + relu P.g_IE) * I i s))

/-- Input current II (lines 273 and 347-348):
tanh(ReLU(W_I*I_0 + (0.001+ReLU(g_EI))*E - I)). -/
def inputII (P : RWWParams) (E I : Fin nn → Fin ns → ℝ) : Fin nn → Fin ns → ℝ :=
  fun i s => Real.tanh (relu (P.W_I * P.I_0 + (0.001 + relu P.g_EI) * E i s - I i s))

/-- E_next (lines 279-281 and 354-356), evaluated on sampled copies E, I. -/
def eulerE (P : RWWParams) (lap : Matrix (Fin nn) (Fin nn) ℝ) (dt : ℝ)
    (E I : Fin nn → Fin ns → ℝ) (z : StepNoise nn ns) : Fin nn → Fin ns → ℝ :=
  fun i s => E i s + dt * (-(E i s) * P.tau_E⁻¹
      + P.gamma_E * (1 - E i s) * h_tf P.aE P.bE P.dE (inputIE P lap E I i s))
    + Real.sqrt dt * z.n1 i s * (0.02 + relu P.std_in)

/-- I_next (lines 282-284 and 357-359), evaluated on sampled copies E, I. -/
def eulerI (P : RWWParams) (dt : ℝ)
    (E I : Fin nn → Fin ns → ℝ) (z : StepNoise nn ns) : Fin nn → Fin ns → ℝ :=
  fun i s => I i s + dt * (-(I i s) * P.tau_I⁻¹
      + P.gamma_I * h_tf P.aI P.bI P.dI (inputII P E I i s))
    + Real.sqrt dt * z.n2 i s * (0.02 + relu P.std_in)

/-- One fine step of the smooth-saturation (use_dynamic_boundary) neural loop
(lines 262-298): draw samples, Euler-update them, saturate through
tanh(ReLU(.)), average over samples and floor the means at 1e-5.  Returns the
new (E_mean, I_mean). -/
def fineStepSmooth (P : RWWParams) (lap : Matrix (Fin nn) (Fin nn) ℝ) (dt : ℝ)
    (Em Im : Fin nn → ℝ) (z : StepNoise nn ns) : (Fin nn → ℝ) × (Fin nn → ℝ) :=
  (fun i => floor1e5 (sampleMean fun s => Real.tanh (0.0000 + relu (1.0 *
      eulerE P lap dt (sampleE Em z) (sampleI Im z) z i s))),
   fun i => floor1e5 (sampleMean fun s => Real.tanh (0.0000 + relu (1.0 *
      eulerI P dt (sampleE Em z) (sampleI Im z) z i s))))

/-- One fine step of the hard-clamp neural loop (lines 336-369): draw samples
(0.001 perturbation on E), Euler-update them, floor each sample at 1e-5, and
average; the means themselves are not floored in this branch. -/
def fineStepHard (P : RWWParams) (lap : Matrix (Fin nn) (Fin nn) ℝ) (dt : ℝ)
    (Em Im : Fin nn → ℝ) (z : StepNoise nn ns) : (Fin nn → ℝ) × (Fin nn → ℝ) :=
  (fun i => sampleMean fun s => floor1e5 (
      eulerE P lap dt (sampleEHard Em z) (sampleI Im z) z i s),
   fun i => sampleMean fun s => floor1e5 (
      eulerI P dt (sampleEHard Em z) (sampleI Im z) z i s))

/-- Running means of the smooth neural loop after t fine steps; the code's
two nested loops (TRs_per_window x steps_per_TR) are flattened into the
single counter t = TR_i * steps_per_TR + step_i, matching execution order.
At t = 0 the means are the E and I columns of hx (lines 252-253). -/
def meansAfterSmooth (R : RunCfg nn ns) : ℕ → (Fin nn → ℝ) × (Fin nn → ℝ)
  | 0 => (fun i => R.hx i 0, fun i => R.hx i 1)
  | t + 1 =>
    fineStepSmooth R.P R.lap R.dt (meansAfterSmooth R t).1 (meansAfterSmooth R t).2
      (R.noise t)

/-- Running means of the hard-clamp neural loop after t fine steps. -/
def meansAfterHard (R : RunCfg nn ns) : ℕ → (Fin nn → ℝ) × (Fin nn → ℝ)
  | 0 => (fun i => R.hx i 0, fun i => R.hx i 1)
  | t + 1 =>
    fineStepHard R.P R.lap R.dt (meansAfterHard R t).1 (meansAfterHard R t).2
      (R.noise t)

/-- E_hist of the smooth branch (line 297): the zeros-initialized buffer
holds, at in-range index (TR_i, step_i), the running E mean right after that
fine step; out-of-range reads see the zero initialization. -/
def EhistSmooth (R : RunCfg nn ns) (TR st : ℕ) : Fin nn → ℝ :=
  if TR < R.TRs ∧ st < R.steps then (meansAfterSmooth R (TR * R.steps + st + 1)).1
  else 0

/-- I_hist of the smooth branch (line 298). -/
def IhistSmooth (R : RunCfg nn ns) (TR st : ℕ) : Fin nn → ℝ :=
  if TR < R.TRs ∧ st < R.steps then (meansAfterSmooth R (TR * R.steps + st + 1)).2
  else 0

/-- E_hist of the hard branch (line 370) records tanh of the unfloored mean. -/
def EhistHard (R : RunCfg nn ns) (TR st : ℕ) : Fin nn → ℝ :=
  if TR < R.TRs ∧ st < R.steps then
    fun i => Real.tanh ((meansAfterHard R (TR * R.steps + st + 1)).1 i)
  else 0

/-- I_hist of the hard branch (line 371). -/
def IhistHard (R : RunCfg nn ns) (TR st : ℕ) : Fin nn → ℝ :=
  if TR < R.TRs ∧ st < R.steps then
    fun i => Real.tanh ((meansAfterHard R (TR * R.steps + st + 1)).2 i)
  else 0

/-- The four hemodynamic states (x, f, v, q) per region. -/
structure HemoState (nn : ℕ) where
  x : Fin nn → ℝ
  f : Fin nn → ℝ
  v : Fin nn → ℝ
  q : Fin nn → ℝ

/-- The incoming hemodynamic state: columns 2..5 of hx (lines 209-212). -/
def initHemo (R : RunCfg nn ns) : HemoState nn :=
  ⟨fun i => R.hx i 2, fun i => R.hx i 3, fun i => R.hx i 4, fun i => R.hx i 5⟩

/-- The raw Balloon-Windkessel Euler update x_next/f_next/v_next/q_next
(lines 303-311 and 379-387), with u the E_hist input of the step. -/
def hemoDrift (P : RWWParams) (dt : ℝ) (u : Fin nn → ℝ) (h : HemoState nn) :
    HemoState nn :=
  ⟨fun i => h.x i + 1 * dt * (1 * u i - P.tau_s⁻¹ * h.x i - P.tau_f⁻¹ * (h.f i - 1)),
   fun i => h.f i + 1 * dt * h.x i,
   fun i => h.v i + 1 * dt * (h.f i - h.v i ^ P.alpha⁻¹) * P.tau_0⁻¹,
   fun i => h.q i + 1 * dt * (h.f i * (1 - (1 - P.rho) ^ (h.f i)⁻¹) * P.rho⁻¹
     - h.q i * h.v i ^ P.alpha⁻¹ * (h.v i)⁻¹) * P.tau_0⁻¹⟩

/-- Smooth-branch hemodynamic step (lines 313-316): x = tanh(x_next),
f = 1 + tanh(f_next - 1), and likewise for v and q. -/
def hemoStepSmooth (P : RWWParams) (dt : ℝ) (u : Fin nn → ℝ) (h : HemoState nn) :
    HemoState nn :=
  ⟨fun i => Real.tanh ((hemoDrift P dt u h).x i),
   fun i => 1 + Real.tanh ((hemoDrift P dt u h).f i - 1),
   fun i => 1 + Real.tanh ((hemoDrift P dt u h).v i - 1),
   fun i => 1 + Real.tanh ((hemoDrift P dt u h).q i - 1)⟩

/-- Hard-clamp hemodynamic step (lines 389-395): f, v, q floored at 1e-3,
x taken from the raw update with no clamp. -/
def hemoStepHard (P : RWWParams) (dt : ℝ) (u : Fin nn → ℝ) (h : HemoState nn) :
    HemoState nn :=
  ⟨(hemoDrift P dt u h).x,
   fun i => floor1e3 ((hemoDrift P dt u h).f i),
   fun i => floor1e3 ((hemoDrift P dt u h).v i),
   fun i => floor1e3 ((hemoDrift P dt u h).q i)⟩

/-- Hemodynamic state after t fine steps of the smooth branch, consuming the
smooth E history; t is again the flattened TR_i * steps_per_TR + step_i. -/
def hemoAfterSmooth (R : RunCfg nn ns) : ℕ → HemoState nn
  | 0 => initHemo R
  | t + 1 =>
    hemoStepSmooth R.P R.dt (EhistSmooth R (t / R.steps) (t % R.steps))
      (hemoAfterSmooth R t)

/-- Hemodynamic state after t fine steps of the hard-clamp branch. -/
def hemoAfterHard (R : RunCfg nn ns) : ℕ → HemoState nn
  | 0 => initHemo R
  | t + 1 =>
    hemoStepHard R.P R.dt (EhistHard R (t / R.steps) (t % R.steps))
      (hemoAfterHard R t)

/-- The hemodynamic state at the end of imaging period TR, i.e. after all
steps_per_TR fine steps of that period have run (what lines 318-321 and
397-400 copy into x_window/f_window/v_window/q_window). -/
def hemoAtTRSmooth (R : RunCfg nn ns) (TR : ℕ) : HemoState nn :=
  hemoAfterSmooth R ((TR + 1) * R.steps)

/-- Hard-branch analogue of hemoAtTRSmooth. -/
def hemoAtTRHard (R : RunCfg nn ns) (TR : ℕ) : HemoState nn :=
  hemoAfterHard R ((TR + 1) * R.steps)

/-- The BOLD readout (lines 325-328 and 403-406):
(0.00 + ReLU(std_out))*randn + 100*V/E0*(k1*(1-q) + k2*(1-q/v) + k3*(1-v)). -/
def boldFormula (P : RWWParams) (zeta : Fin nn → ℝ) (h : HemoState nn) :
    Fin nn → ℝ :=
  fun i => (0.00 + relu P.std_out) * zeta i + 100.0 * P.V * P.E0⁻¹ *
    (P.k1 * (1 - h.q i) + P.k2 * (1 - h.q i * (h.v i)⁻¹) + P.k3 * (1 - h.v i))

/-- bold_window column TR of the smooth branch. -/
def boldWindowSmooth (R : RunCfg nn ns) (TR : ℕ) : Fin nn → ℝ :=
  boldFormula R.P (R.boldNoise TR) (hemoAtTRSmooth R TR)

/-- bold_window column TR of the hard branch. -/
def boldWindowHard (R : RunCfg nn ns) (TR : ℕ) : Fin nn → ℝ :=
  boldFormula R.P (R.boldNoise TR) (hemoAtTRHard R TR)

/-- current_state of the smooth branch (line 410): the concatenation
[E_mean, I_mean, x, f, v, q] after all TRs_per_window * steps_per_TR fine
steps, as a regions x 6 matrix. -/
def currentStateSmooth (R : RunCfg nn ns) : Matrix (Fin nn) (Fin 6) ℝ :=
  fun i k =>
    ![(meansAfterSmooth R (R.TRs * R.steps)).1 i,
      (meansAfterSmooth R (R.TRs * R.steps)).2 i,
      (hemoAfterSmooth R (R.TRs * R.steps)).x i,
      (hemoAfterSmooth R (R.TRs * R.steps)).f i,
      (hemoAfterSmooth R (R.TRs * R.steps)).v i,
      (hemoAfterSmooth R (R.TRs * R.steps)).q i] k

/-- current_state of the hard branch. -/
def currentStateHard (R : RunCfg nn ns) : Matrix (Fin nn) (Fin 6) ℝ :=
  fun i k =>
    ![(meansAfterHard R (R.TRs * R.steps)).1 i,
      (meansAfterHard R (R.TRs * R.steps)).2 i,
      (hemoAfterHard R (R.TRs * R.steps)).x i,
      (hemoAfterHard R (R.TRs * R.steps)).f i,
      (hemoAfterHard R (R.TRs * R.steps)).v i,
      (hemoAfterHard R (R.TRs * R.steps)).q i] k

end

/-- Identity of a trainable tensor created or registered by
setModelParameters (wong_wang.py lines 130-186): the Parameters created for
the Gaussian-EI and bifurcation modes, the connectivity gain matrix, and,
for each entry of the parameter container, its value, prior mean and prior
variance tensors. -/
inductive TensorId where
  | E_m
  | I_m
  | v_m
  | q_m
  | E_v_inv
  | I_v_inv
  | v_v_inv
  | q_v_inv
  | sup_ca
  | sup_cb
  | sup_cc
  | gains_con
  | pVal (name : String)
  | pMean (name : String)
  | pVar (name : String)
deriving DecidableEq

/-- One named entry of the ParamsRWW container as seen by the dir() walk of
setModelParameters: isPar is the `type(var) == par` check, fit_par and
fit_hyper the flags read on lines 178 and 182. -/
structure ParEntry where
  name : String
  isPar : Bool
  fit_par : Bool
  fit_hyper : Bool

/-- setModelParameters (lines 130-186), tracking tensor identities: returns
(param_reg, param_hyper) in append order.  Line 153 creates the Parameter
q_v_inv but line 154 appends model.v_v_inv a second time, which this
definition reproduces verbatim. -/
def setParamsLists (gaussian bifurcation fitGains : Bool) (entries : List ParEntry) :
    List TensorId × List TensorId :=
  let ph1 : List TensorId :=
    if gaussian then
      [.E_m, .I_m, .v_m, .q_m, .E_v_inv, .I_v_inv, .v_v_inv, .v_v_inv]
    else []
  let ph2 := ph1 ++ (if bifurcation then [.sup_ca, .sup_cb, .sup_cc] else [])
  let pr1 : List TensorId := if fitGains then [.gains_con] else []
  entries.foldl
    (fun acc e =>
      if e.isPar then
        ((if e.fit_par then acc.1 ++ [TensorId.pVal e.name] else acc.1),
         (if e.fit_hyper then acc.2 ++ [TensorId.pMean e.name, TensorId.pVar e.name]
          else acc.2))
      else acc)
    (pr1, ph2)

/-- Every trainable tensor setModelParameters creates or registers: the
Parameters assigned onto the model under each enabled mode (including
q_v_inv, created on line 153) and, per container entry, the tensors its
flags mark for fitting. -/
def createdTrainables (gaussian bifurcation fitGains : Bool)
    (entries : List ParEntry) : List TensorId :=
  (if gaussian then
    [.E_m, .I_m, .v_m, .q_m, .E_v_inv, .I_v_inv, .v_v_inv, .q_v_inv]
   else []) ++
  (if bifurcation then [.sup_ca, .sup_cb, .sup_cc] else []) ++
  (if fitGains then [.gains_con] else []) ++
  entries.foldl
    (fun acc e =>
      if e.isPar then
        acc ++ (if e.fit_hyper then [TensorId.pMean e.name, TensorId.pVar e.name] else [])
            ++ (if e.fit_par then [TensorId.pVal e.name] else [])
      else acc)
    []

noncomputable section

/-- gains_con as created by setModelParameters (lines 166-172):
np.zeros((n,n)) + 0.05 when use_fit_gains is set, np.zeros((n,n)) otherwise. -/
def gainsConInit (fitGains : Bool) (n : ℕ) : Matrix (Fin n) (Fin n) ℝ :=
  if fitGains then fun _ _ => 0 + 0.05 else fun _ _ => 0

/-- Whether gains_con is wrapped in Parameter (trainable), lines 166-172. -/
def gainsConTrainable (fitGains : Bool) : Bool := fitGains

/-- The attributes of the model object that take part in the coupling-matrix
computation of integration_forward (lines 220-234). -/
structure CouplingModel (n : ℕ) where
  gains_con : Matrix (Fin n) (Fin n) ℝ
  sc : Matrix (Fin n) (Fin n) ℝ
  sc_fitted : Matrix (Fin n) (Fin n) ℝ

/-- The coupling-building stage of a forward call (lines 220-234): for more
than one region it recomputes sc_mod_normalized from gains_con and sc,
stores it on the model as sc_fitted (line 226), and hands lap_adj to the
integrator; for one region the model is untouched and lap_adj is zero. -/
def couplingStage {n : ℕ} (useLaplacian : Bool) (m : CouplingModel n) :
    CouplingModel n × Matrix (Fin n) (Fin n) ℝ :=
  if 1 < n then
    (⟨m.gains_con, m.sc, scModNormalized m.gains_con m.sc⟩,
     if useLaplacian then
       -diagOf (fun i => ∑ j, scModNormalized m.gains_con m.sc i j)
         + scModNormalized m.gains_con m.sc
     else scModNormalized m.gains_con m.sc)
  else (m, 0)

end

theorem relu_nonneg (x : ℝ) : 0 ≤ relu x := le_max_right x 0

theorem tanh_lt_one (x : ℝ) : Real.tanh x < 1 := by
  rw [Real.tanh_eq_sinh_div_cosh, div_lt_one (Real.cosh_pos x)]
  exact Real.sinh_lt_cosh x

theorem neg_one_lt_tanh (x : ℝ) : -1 < Real.tanh x := by
  rw [Real.tanh_eq_sinh_div_cosh, lt_div_iff₀ (Real.cosh_pos x)]
  have h := Real.cosh_add_sinh x
  have := Real.exp_pos x
  nlinarith

theorem tanh_nonneg {x : ℝ} (hx : 0 ≤ x) : 0 ≤ Real.tanh x := by
  rw [Real.tanh_eq_sinh_div_cosh]
  exact div_nonneg (Real.sinh_nonneg_iff.2 hx) (Real.cosh_pos x).le

theorem sampleMean_mem {ns : ℕ} (hns : 1 ≤ ns) (g : Fin ns → ℝ)
    (h0 : ∀ s, 0 ≤ g s) (h1 : ∀ s, g s < 1) :
    0 ≤ sampleMean g ∧ sampleMean g < 1 := by
  have hpos : (0 : ℝ) < ns := by exact_mod_cast hns
  have hne : (Finset.univ : Finset (Fin ns)).Nonempty := ⟨⟨0, hns⟩, Finset.mem_univ _⟩
  unfold sampleMean
  constructor
  · exact div_nonneg (Finset.sum_nonneg fun s _ => h0 s) hpos.le
  · rw [div_lt_one hpos]
    calc ∑ s, g s < ∑ _s : Fin ns, (1 : ℝ) :=
          Finset.sum_lt_sum_of_nonempty hne fun s _ => h1 s
      _ = ns := by simp

theorem floor1e5_mem {μ : ℝ} (hlt : μ < 1) :
    0.00001 ≤ floor1e5 μ ∧ floor1e5 μ < 1 := by
  unfold floor1e5
  split
  · norm_num
  · constructor
    · linarith [not_lt.1 (by assumption : ¬ μ < 0.00001)]
    · exact hlt

theorem fineStepSmooth_mem {nn ns : ℕ} (hns : 1 ≤ ns) (P : RWWParams)
    (lap : Matrix (Fin nn) (Fin nn) ℝ) (dt : ℝ) (Em Im : Fin nn → ℝ)
    (z : StepNoise nn ns) :
    ∀ i, (0.00001 ≤ (fineStepSmooth P lap dt Em Im z).1 i ∧
            (fineStepSmooth P lap dt Em Im z).1 i < 1) ∧
         (0.00001 ≤ (fineStepSmooth P lap dt Em Im z).2 i ∧
            (fineStepSmooth P lap dt Em Im z).2 i < 1) := by
  intro i
  have hb : ∀ y : ℝ, 0 ≤ Real.tanh (0.0000 + relu (1.0 * y)) ∧
      Real.tanh (0.0000 + relu (1.0 * y)) < 1 := by
    intro y
    refine ⟨tanh_nonneg ?_, tanh_lt_one _⟩
    have := relu_nonneg (1.0 * y)
    linarith
  constructor
  · exact floor1e5_mem (sampleMean_mem hns _ (fun s => (hb _).1) (fun s => (hb _).2)).2
  · exact floor1e5_mem (sampleMean_mem hns _ (fun s => (hb _).1) (fun s => (hb _).2)).2

theorem meansAfterSmooth_mem {nn ns : ℕ} (R : RunCfg nn ns) (hns : 1 ≤ ns) (t : ℕ) :
    ∀ i, (0.00001 ≤ (meansAfterSmooth R (t + 1)).1 i ∧
            (meansAfterSmooth R (t + 1)).1 i < 1) ∧
         (0.00001 ≤ (meansAfterSmooth R (t + 1)).2 i ∧
            (meansAfterSmooth R (t + 1)).2 i < 1) := by
  intro i
  exact fineStepSmooth_mem hns R.P R.lap R.dt (meansAfterSmooth R t).1
    (meansAfterSmooth R t).2 (R.noise t) i

theorem hemoStepSmooth_mem {nn : ℕ} (P : RWWParams) (dt : ℝ) (u : Fin nn → ℝ)
    (h : HemoState nn) :
    ∀ i, (-1 < (hemoStepSmooth P dt u h).x i ∧ (hemoStepSmooth P dt u h).x i < 1) ∧
         (0 < (hemoStepSmooth P dt u h).f i ∧ (hemoStepSmooth P dt u h).f i < 2) ∧
         (0 < (hemoStepSmooth P dt u h).v i ∧ (hemoStepSmooth P dt u h).v i < 2) ∧
         (0 < (hemoStepSmooth P dt u h).q i ∧ (hemoStepSmooth P dt u h).q i < 2) := by
  intro i
  have hf1 := neg_one_lt_tanh ((hemoDrift P dt u h).f i - 1)
  have hf2 := tanh_lt_one ((hemoDrift P dt u h).f i - 1)
  have hv1 := neg_one_lt_tanh ((hemoDrift P dt u h).v i - 1)
  have hv2 := tanh_lt_one ((hemoDrift P dt u h).v i - 1)
  have hq1 := neg_one_lt_tanh ((hemoDrift P dt u h).q i - 1)
  have hq2 := tanh_lt_one ((hemoDrift P dt u h).q i - 1)
  refine ⟨⟨neg_one_lt_tanh _, tanh_lt_one _⟩, ⟨?_, ?_⟩, ⟨?_, ?_⟩, ⟨?_, ?_⟩⟩ <;>
    simp only [hemoStepSmooth] <;> linarith

theorem currentStateSmooth_cols {nn ns : ℕ} (R : RunCfg nn ns) (i : Fin nn) :
    currentStateSmooth R i 0 = (meansAfterSmooth R (R.TRs * R.steps)).1 i ∧
    currentStateSmooth R i 1 = (meansAfterSmooth R (R.TRs * R.steps)).2 i ∧
    currentStateSmooth R i 2 = (hemoAfterSmooth R (R.TRs * R.steps)).x i ∧
    currentStateSmooth R i 3 = (hemoAfterSmooth R (R.TRs * R.steps)).f i ∧
    currentStateSmooth R i 4 = (hemoAfterSmooth R (R.TRs * R.steps)).v i ∧
    currentStateSmooth R i 5 = (hemoAfterSmooth R (R.TRs * R.steps)).q i :=
  ⟨rfl, rfl, rfl, rfl, rfl, rfl⟩

/-- C1: for every valid configuration (at least one sample, one fine step per
period, one period per window) running the smooth-saturation
(use_dynamic_boundary) branch, the state current_state returned by forward is
a regions x 6 matrix (here by type) whose E and I columns lie in [0,1), whose
f and v columns are strictly positive and whose q column lies in [0,2);
moreover after every fine step the running means E_mean and I_mean lie in
[1e-5, 1). -/
theorem claim_C1_smooth_invariants {nn ns : ℕ} (R : RunCfg nn ns)
    (hns : 1 ≤ ns) (hst : 1 ≤ R.steps) (hTR : 1 ≤ R.TRs) :
    (∀ i, (0 ≤ currentStateSmooth R i 0 ∧ currentStateSmooth R i 0 < 1) ∧
          (0 ≤ currentStateSmooth R i 1 ∧ currentStateSmooth R i 1 < 1) ∧
          0 < currentStateSmooth R i 3 ∧
          0 < currentStateSmooth R i 4 ∧
          (0 ≤ currentStateSmooth R i 5 ∧ currentStateSmooth R i 5 < 2)) ∧
    (∀ t i,
      (0.00001 ≤ (meansAfterSmooth R (t + 1)).1 i ∧
        (meansAfterSmooth R (t + 1)).1 i < 1) ∧
      (0.00001 ≤ (meansAfterSmooth R (t + 1)).2 i ∧
        (meansAfterSmooth R (t + 1)).2 i < 1)) := by
  have htot : R.TRs * R.steps ≠ 0 := Nat.mul_ne_zero (by omega) (by omega)
  obtain ⟨t, ht⟩ := Nat.exists_eq_succ_of_ne_zero htot
  constructor
  · intro i
    obtain ⟨h0, h1, _h2, h3, h4, h5⟩ := currentStateSmooth_cols R i
    rw [h0, h1, h3, h4, h5, ht]
    have hm := meansAfterSmooth_mem R hns t i
    have hh := hemoStepSmooth_mem R.P R.dt
      (EhistSmooth R (t / R.steps) (t % R.steps)) (hemoAfterSmooth R t) i
    exact ⟨⟨by linarith [hm.1.1], hm.1.2⟩, ⟨by linarith [hm.2.1], hm.2.2⟩,
      hh.2.1.1, hh.2.2.1.1, ⟨(hh.2.2.2.1).le, hh.2.2.2.2⟩⟩
  · intro t i
    exact meansAfterSmooth_mem R hns t i

noncomputable def P1 : RWWParams :=
  ⟨1, 1, 1, 1, 1, 1, 1, 1, 1, 1, 1, 1, 1, 1, 1, 1, 1, 1, 1, 1, 1, 1, 1, 1, 1,
   1, 1, 1, 1⟩

noncomputable def zeroNoise : StepNoise 1 1 :=
  ⟨fun _ _ => 0, fun _ _ => 0, fun _ _ => 0, fun _ _ => 0⟩

/-- A concrete single-region, single-sample, one-period, one-step run. -/
noncomputable def R1 : RunCfg 1 1 :=
  ⟨P1, 0, 0.05, 1, 1, fun _ => zeroNoise, fun _ _ => 0, fun _ _ => 0⟩

/-- C1 witness: the blood-flow component of the returned state of the
concrete run R1 is strictly positive. -/
theorem claim_C1_smooth_invariants_witness : 0 < currentStateSmooth R1 0 3 :=
  ((claim_C1_smooth_invariants R1 (le_refl 1) (le_refl 1) (le_refl 1)).1 0).2.2.1

theorem floor1e3_ge (x : ℝ) : 0.001 ≤ floor1e3 x := by
  unfold floor1e3
  split
  · norm_num
  · linarith [not_lt.1 (by assumption : ¬ x < 0.001)]

theorem currentStateHard_cols {nn ns : ℕ} (R : RunCfg nn ns) (i : Fin nn) :
    currentStateHard R i 3 = (hemoAfterHard R (R.TRs * R.steps)).f i ∧
    currentStateHard R i 4 = (hemoAfterHard R (R.TRs * R.steps)).v i ∧
    currentStateHard R i 5 = (hemoAfterHard R (R.TRs * R.steps)).q i :=
  ⟨rfl, rfl, rfl⟩

/-- C6: under the hard-clamp (not use_dynamic_boundary) policy, after every
hemodynamic Euler step the states f, v, q are at least 1e-3 while x is
exactly the raw unclamped Euler update; consequently (given at least one
fine step per period and one period per window) every f, v, q value emitted
in the per-period windows and in the returned state is at least 1e-3. -/
theorem claim_C6_hard_clamp_floor {nn ns : ℕ} (R : RunCfg nn ns)
    (hst : 1 ≤ R.steps) (hTR : 1 ≤ R.TRs) :
    (∀ t i, 0.001 ≤ (hemoAfterHard R (t + 1)).f i ∧
            0.001 ≤ (hemoAfterHard R (t + 1)).v i ∧
            0.001 ≤ (hemoAfterHard R (t + 1)).q i) ∧
    (∀ t, (hemoAfterHard R (t + 1)).x =
      (hemoDrift R.P R.dt (EhistHard R (t / R.steps) (t % R.steps))
        (hemoAfterHard R t)).x) ∧
    (∀ TR i, 0.001 ≤ (hemoAtTRHard R TR).f i ∧
             0.001 ≤ (hemoAtTRHard R TR).v i ∧
             0.001 ≤ (hemoAtTRHard R TR).q i) ∧
    (∀ i, 0.001 ≤ currentStateHard R i 3 ∧
          0.001 ≤ currentStateHard R i 4 ∧
          0.001 ≤ currentStateHard R i 5) := by
  have hstep : ∀ t i, 0.001 ≤ (hemoAfterHard R (t + 1)).f i ∧
      0.001 ≤ (hemoAfterHard R (t + 1)).v i ∧
      0.001 ≤ (hemoAfterHard R (t + 1)).q i := by
    intro t i
    exact ⟨floor1e3_ge _, floor1e3_ge _, floor1e3_ge _⟩
  refine ⟨hstep, fun t => rfl, ?_, ?_⟩
  · intro TR i
    have hne : (TR + 1) * R.steps ≠ 0 := Nat.mul_ne_zero (by omega) (by omega)
    obtain ⟨t, ht⟩ := Nat.exists_eq_succ_of_ne_zero hne
    unfold hemoAtTRHard
    rw [ht]
    exact hstep t i
  · intro i
    have hne : R.TRs * R.steps ≠ 0 := Nat.mul_ne_zero (by omega) (by omega)
    obtain ⟨t, ht⟩ := Nat.exists_eq_succ_of_ne_zero hne
    obtain ⟨h3, h4, h5⟩ := currentStateHard_cols R i
    rw [h3, h4, h5, ht]
    exact hstep t i

/-- C6 witness: the blood-flow component of the returned state of the
concrete hard-clamp run on R1 is at least 1e-3. -/
theorem claim_C6_hard_clamp_floor_witness : 0.001 ≤ currentStateHard R1 0 3 :=
  ((claim_C6_hard_clamp_floor R1 (le_refl 1) (le_refl 1)).2.2.2 0).1

theorem frobNorm_pos {n : ℕ} {M : Matrix (Fin n) (Fin n) ℝ} (h : M ≠ 0) :
    0 < frobNorm M := by
  obtain ⟨i0, hi⟩ := Function.ne_iff.1 h
  obtain ⟨j0, hj⟩ := Function.ne_iff.1 hi
  have hj0 : M i0 j0 ≠ 0 := by simpa using hj
  unfold frobNorm
  apply Real.sqrt_pos.2
  have h1 : (0 : ℝ) < M i0 j0 ^ 2 := pow_two_pos_of_ne_zero hj0
  have h2 : M i0 j0 ^ 2 ≤ ∑ j, M i0 j ^ 2 :=
    Finset.single_le_sum (f := fun j => M i0 j ^ 2) (fun j _ => sq_nonneg _)
      (Finset.mem_univ j0)
  have h3 : ∑ j, M i0 j ^ 2 ≤ ∑ i, ∑ j, M i j ^ 2 :=
    Finset.single_le_sum (f := fun i => ∑ j, M i j ^ 2)
      (fun i _ => Finset.sum_nonneg fun j _ => sq_nonneg _) (Finset.mem_univ i0)
  linarith

theorem frobNorm_div_const {n : ℕ} (M : Matrix (Fin n) (Fin n) ℝ) (c : ℝ)
    (hc : 0 ≤ c) : frobNorm (fun i j => M i j / c) = frobNorm M / c := by
  unfold frobNorm
  have hsum : ∑ i, ∑ j, (M i j / c) ^ 2 = (∑ i, ∑ j, M i j ^ 2) / c ^ 2 := by
    simp [div_pow, Finset.sum_div]
  rw [hsum, Real.sqrt_div (by positivity), Real.sqrt_sq hc]

theorem symmetrize_scMod_ne_zero {n : ℕ} {G S : Matrix (Fin n) (Fin n) ℝ}
    (hnonneg : ∀ i j, 0 ≤ S i j) (hS : S ≠ 0) :
    symmetrize (scMod G S) ≠ 0 := by
  obtain ⟨i0, hi⟩ := Function.ne_iff.1 hS
  obtain ⟨j0, hj⟩ := Function.ne_iff.1 hi
  have hj0 : S i0 j0 ≠ 0 := by simpa using hj
  have hpos : 0 < S i0 j0 := lt_of_le_of_ne (hnonneg i0 j0) (Ne.symm hj0)
  intro h
  have hentry := congrFun (congrFun h i0) j0
  have h0 : (0.5 : ℝ) * (Real.exp (G i0 j0) * S i0 j0
      + Real.exp (G j0 i0) * S j0 i0) = 0 := by simpa [symmetrize, scMod] using hentry
  have h1 : 0 < Real.exp (G i0 j0) * S i0 j0 := mul_pos (Real.exp_pos _) hpos
  have h2 : 0 ≤ Real.exp (G j0 i0) * S j0 i0 :=
    mul_nonneg (Real.exp_pos _).le (hnonneg j0 i0)
  linarith

theorem scModNormalized_frobNorm_one {n : ℕ} (G S : Matrix (Fin n) (Fin n) ℝ)
    (hA : symmetrize (scMod G S) ≠ 0) : frobNorm (scModNormalized G S) = 1 := by
  have hc := frobNorm_pos hA
  have hdef : frobNorm (scModNormalized G S) =
      frobNorm (fun i j => symmetrize (scMod G S) i j
        / frobNorm (symmetrize (scMod G S))) := rfl
  rw [hdef, frobNorm_div_const _ _ hc.le]
  exact div_self hc.ne'

/-- C2 counterexample: the all-zero 2x2 structural matrix is symmetric and
nonnegative, yet the normalized coupling matrix built from it (with zero
gains) does not have Frobenius norm within 1e-5 of 1: the normalization
divides by a zero norm. -/
theorem claim_C2_counterexample :
    (∀ i j, (0 : Matrix (Fin 2) (Fin 2) ℝ) i j = (0 : Matrix (Fin 2) (Fin 2) ℝ) j i) ∧
    (∀ i j, 0 ≤ (0 : Matrix (Fin 2) (Fin 2) ℝ) i j) ∧
    ¬ (|frobNorm (scModNormalized (0 : Matrix (Fin 2) (Fin 2) ℝ) 0) - 1| ≤ 0.00001) := by
  refine ⟨fun i j => rfl, fun i j => le_refl 0, ?_⟩
  have hA : symmetrize (scMod (0 : Matrix (Fin 2) (Fin 2) ℝ) 0) = 0 := by
    funext i j
    simp [symmetrize, scMod]
  have h1 : scModNormalized (0 : Matrix (Fin 2) (Fin 2) ℝ) 0 = 0 := by
    funext i j
    show symmetrize (scMod (0 : Matrix (Fin 2) (Fin 2) ℝ) 0) i j
      / frobNorm (symmetrize (scMod (0 : Matrix (Fin 2) (Fin 2) ℝ) 0)) = 0
    rw [hA]
    simp
  rw [h1]
  have h2 : frobNorm (0 : Matrix (Fin 2) (Fin 2) ℝ) = 0 := by simp [frobNorm]
  rw [h2]
  norm_num

/-- C2 (amended): for at least 2 regions, any gain matrix and any symmetric,
nonnegative and *nonzero* structural matrix, the normalized coupling matrix
is symmetric with Frobenius norm exactly 1 (hence within 1e-5 of 1); for a
single-region network the coupling operator is the 1x1 zero matrix. -/
theorem claim_C2_amended {n : ℕ} (_hn : 1 < n) (G S : Matrix (Fin n) (Fin n) ℝ)
    (_hsym : ∀ i j, S i j = S j i) (hnonneg : ∀ i j, 0 ≤ S i j) (hS : S ≠ 0) :
    (∀ i j, scModNormalized G S i j = scModNormalized G S j i) ∧
    frobNorm (scModNormalized G S) = 1 ∧
    |frobNorm (scModNormalized G S) - 1| ≤ 0.00001 ∧
    (∀ (useLap : Bool) (G1 S1 : Matrix (Fin 1) (Fin 1) ℝ),
      couplingMatrix useLap G1 S1 = 0) := by
  have hone := scModNormalized_frobNorm_one G S (symmetrize_scMod_ne_zero hnonneg hS)
  refine ⟨?_, hone, ?_, ?_⟩
  · intro i j
    show symmetrize (scMod G S) i j / frobNorm (symmetrize (scMod G S)) =
      symmetrize (scMod G S) j i / frobNorm (symmetrize (scMod G S))
    have : symmetrize (scMod G S) i j = symmetrize (scMod G S) j i := by
      unfold symmetrize
      ring
    rw [this]
  · rw [hone]
    norm_num
  · intro useLap G1 S1
    unfold couplingMatrix
    norm_num

/-- C2 witness: concrete 2-region symmetric nonnegative nonzero structural
matrix used to instantiate the amended norm theorem. -/
noncomputable def S2 : Matrix (Fin 2) (Fin 2) ℝ := ![![0, 1], ![1, 0]]

theorem S2_ne_zero : S2 ≠ 0 := by
  intro h
  have := congrFun (congrFun h 0) 1
  simp [S2] at this

/-- C2 amended witness: the coupling matrix of the concrete 2-region network
S2 with zero gains has Frobenius norm 1. -/
theorem claim_C2_amended_witness :
    frobNorm (scModNormalized (0 : Matrix (Fin 2) (Fin 2) ℝ) S2) = 1 :=
  (claim_C2_amended (by norm_num) 0 S2
    (fun i j => by fin_cases i <;> fin_cases j <;> rfl)
    (fun i j => by fin_cases i <;> fin_cases j <;> norm_num [S2])
    S2_ne_zero).2.1

/-- C7: with the Laplacian mode enabled and more than one region, the
coupling operator handed to the integrator is exactly
A - diag(rowsum(A)) for the unit-normalized symmetrized matrix A, every one
of its rows sums to exactly 0 (hence within 1e-5 of 0), and it is the same
operator the forward coupling stage returns. -/
theorem claim_C7_laplacian_rowsums {n : ℕ} (hn : 1 < n)
    (G S : Matrix (Fin n) (Fin n) ℝ) :
    couplingMatrix true G S =
      -diagOf (fun i => ∑ j, scModNormalized G S i j) + scModNormalized G S ∧
    (∀ i, ∑ j, couplingMatrix true G S i j = 0) ∧
    (∀ i, |∑ j, couplingMatrix true G S i j| ≤ 0.00001) ∧
    (∀ m : CouplingModel n, (couplingStage true m).2 =
      couplingMatrix true m.gains_con m.sc) := by
  have h1 : couplingMatrix true G S =
      -diagOf (fun i => ∑ j, scModNormalized G S i j) + scModNormalized G S := by
    unfold couplingMatrix
    rw [if_pos hn]
    rfl
  have h2 : ∀ i, ∑ j, couplingMatrix true G S i j = 0 := by
    intro i
    rw [h1]
    have : ∀ j, (-diagOf (fun k => ∑ l, scModNormalized G S k l)
        + scModNormalized G S) i j =
        -(if i = j then ∑ l, scModNormalized G S i l else 0)
          + scModNormalized G S i j := by
      intro j
      simp [Matrix.add_apply, Matrix.neg_apply, diagOf]
    rw [Finset.sum_congr rfl fun j _ => this j, Finset.sum_add_distrib]
    simp [Finset.sum_ite_eq]
  refine ⟨h1, h2, ?_, ?_⟩
  · intro i
    rw [h2 i]
    norm_num
  · intro m
    unfold couplingStage couplingMatrix
    split <;> rfl

/-- C7 witness: concrete 3-region symmetric structural matrix with zero
diagonal, zero gains. -/
noncomputable def S3 : Matrix (Fin 3) (Fin 3) ℝ := ![![0, 1, 1], ![1, 0, 1], ![1, 1, 0]]

/-- C7 witness: first row of the Laplacian coupling operator of the concrete
3-region network sums to zero. -/
theorem claim_C7_laplacian_rowsums_witness :
    ∑ j, couplingMatrix true (0 : Matrix (Fin 3) (Fin 3) ℝ) S3 0 j = 0 :=
  (claim_C7_laplacian_rowsums (by norm_num) 0 S3).2.1 0

/-- C9: if the symmetrized gain-modulated matrix is zero (e.g. S is all
zeros) while the region count is at least 2, the normalization divides by a
zero Frobenius norm: every entry of the coupling matrix becomes the
non-finite float value (modelled as none), and the real-valued model yields
norm 0, not 1 - the unit-norm guarantee needs a nonzero symmetrized matrix. -/
theorem claim_C9_zero_norm_degenerate {n : ℕ} (_hn : 2 ≤ n)
    (G S : Matrix (Fin n) (Fin n) ℝ) (hzero : symmetrize (scMod G S) = 0) :
    frobNorm (symmetrize (scMod G S)) = 0 ∧
    (∀ i j, scModNormalizedNaN G S i j = none) ∧
    frobNorm (scModNormalized G S) = 0 := by
  have h0 : frobNorm (symmetrize (scMod G S)) = 0 := by
    rw [hzero]
    simp [frobNorm]
  refine ⟨h0, ?_, ?_⟩
  · intro i j
    unfold scModNormalizedNaN
    rw [if_pos h0]
  · have hz : scModNormalized G S = 0 := by
      funext i j
      show symmetrize (scMod G S) i j / frobNorm (symmetrize (scMod G S)) = 0
      rw [h0]
      simp
    rw [hz]
    simp [frobNorm]

/-- C9 witness: with 2 regions, zero gains and the all-zero structural
matrix, every coupling entry is the non-finite value. -/
theorem claim_C9_zero_norm_degenerate_witness :
    scModNormalizedNaN (0 : Matrix (Fin 2) (Fin 2) ℝ) 0 0 0 = none :=
  (claim_C9_zero_norm_degenerate (le_refl 2) 0 0
    (by funext i j; simp [symmetrize, scMod])).2.1 0 0

/-- C4: under the hyperprior-on-states mode (use_Gaussian_EI) the code
creates the trainable Parameter q_v_inv (line 153) but then appends
model.v_v_inv a second time instead (line 154): q_v_inv is a created
trainable tensor that appears in neither returned collection, and
param_hyper holds v_v_inv twice, so coverage and duplicate-freeness both
fail at this input. -/
theorem claim_C4_gaussian_registration_bug :
    TensorId.q_v_inv ∈ createdTrainables true false false [] ∧
    TensorId.q_v_inv ∉ (setParamsLists true false false []).1 ∧
    TensorId.q_v_inv ∉ (setParamsLists true false false []).2 ∧
    List.count TensorId.v_v_inv (setParamsLists true false false []).2 = 2 ∧
    ¬ (setParamsLists true false false []).2.Nodup := by
  decide

/-- C5 counterexample: with gain fitting enabled, the created gains_con
entry is 0.05, not 0 — the matrix is not zero-initialized. -/
theorem claim_C5_counterexample :
    gainsConInit true 2 0 0 = 0.05 ∧ gainsConInit true 2 0 0 ≠ 0 := by
  constructor
  · show (0 : ℝ) + 0.05 = 0.05
    norm_num
  · show (0 : ℝ) + 0.05 ≠ 0
    norm_num

/-- C5 (amended): when gain fitting is enabled the connectivity-gain matrix
is created as a trainable region x region matrix with every entry 0.05
(np.zeros + 0.05); when gain fitting is disabled it is a fixed all-zero
matrix. -/
theorem claim_C5_amended :
    ∀ (n : ℕ) (i j : Fin n),
      gainsConInit true n i j = 0.05 ∧
      gainsConTrainable true = true ∧
      gainsConInit false n i j = 0 ∧
      gainsConTrainable false = false := by
  intro n i j
  refine ⟨?_, rfl, rfl, rfl⟩
  show (0 : ℝ) + 0.05 = 0.05
  norm_num

/-- Concrete 2-region model state before a forward call: zero gains,
structural matrix S2, sc_fitted still holding its zero placeholder. -/
noncomputable def M8 : CouplingModel 2 := ⟨0, S2, 0⟩

/-- C8 counterexample: the coupling stage of a forward call persists a
component of the coupling computation on the model object — it overwrites
sc_fitted with the freshly normalized matrix (line 226), so the model that
comes out of the stage differs from the model that went in. -/
theorem claim_C8_counterexample :
    (couplingStage true M8).1.sc_fitted 0 1 ≠ M8.sc_fitted 0 1 := by
  show scModNormalized (0 : Matrix (Fin 2) (Fin 2) ℝ) S2 0 1 ≠ 0
  have hnonneg : ∀ i j, (0 : ℝ) ≤ S2 i j := by
    intro i j
    fin_cases i <;> fin_cases j <;> norm_num [S2]
  have hden : 0 < frobNorm (symmetrize (scMod (0 : Matrix (Fin 2) (Fin 2) ℝ) S2)) :=
    frobNorm_pos (symmetrize_scMod_ne_zero hnonneg S2_ne_zero)
  have hnum : 0 < symmetrize (scMod (0 : Matrix (Fin 2) (Fin 2) ℝ) S2) 0 1 := by
    show 0 < (0.5 : ℝ) * (Real.exp ((0 : Matrix (Fin 2) (Fin 2) ℝ) 0 1) * S2 0 1
      + Real.exp ((0 : Matrix (Fin 2) (Fin 2) ℝ) 1 0) * S2 1 0)
    norm_num [S2, Matrix.zero_apply, Real.exp_zero]
  exact (div_pos hnum hden).ne'

/-- C8 (amended): the coupling matrix is recomputed each forward call from
the gain parameters and the raw structural matrix alone — the stage's output
operator and the freshly written sc_fitted agree for any two models sharing
gains_con and sc, whatever their previous sc_fitted, and gains_con and sc
are left untouched; the recomputed matrix is, however, persisted on the
model as sc_fitted. -/
theorem claim_C8_amended {n : ℕ} (useLap : Bool) (m1 m2 : CouplingModel n)
    (hg : m1.gains_con = m2.gains_con) (hs : m1.sc = m2.sc) :
    (couplingStage useLap m1).2 = (couplingStage useLap m2).2 ∧
    (1 < n → (couplingStage useLap m1).1.sc_fitted =
      (couplingStage useLap m2).1.sc_fitted) ∧
    (couplingStage useLap m1).1.gains_con = m1.gains_con ∧
    (couplingStage useLap m1).1.sc = m1.sc ∧
    (1 < n → (couplingStage useLap m1).1.sc_fitted =
      scModNormalized m1.gains_con m1.sc) := by
  by_cases h : 1 < n
  · refine ⟨?_, fun _ => ?_, ?_, ?_, fun _ => ?_⟩ <;>
      simp [couplingStage, h, hg, hs]
  · refine ⟨?_, fun hc => absurd hc h, ?_, ?_, fun hc => absurd hc h⟩ <;>
      simp [couplingStage, h]

/-- C8 amended witness: instantiation at the concrete model M8 against
itself. -/
theorem claim_C8_amended_witness :
    (couplingStage true M8).2 = (couplingStage true M8).2 :=
  (claim_C8_amended true M8 M8 rfl rfl).1

/-- C10: steps_per_TR = int(tr / step_size) is truncating division: for
positive step size and nonnegative tr it equals floor(tr/step); when the
step size exceeds tr the count is 0; and a run with steps_per_TR = 0 leaves
the E/I history buffers identically zero, and every per-period window and
BOLD sample reads the untouched initial hemodynamic state carried in hx. -/
theorem claim_C10_truncated_steps :
    (∀ tr step : ℝ, 0 < step → 0 ≤ tr → stepsPerTR tr step = ⌊tr / step⌋) ∧
    (∀ tr step : ℝ, 0 < tr → tr < step → stepsPerTR tr step = 0) ∧
    (∀ (nn ns : ℕ) (R : RunCfg nn ns), R.steps = 0 →
      (∀ TR st, EhistSmooth R TR st = 0) ∧
      (∀ TR st, IhistSmooth R TR st = 0) ∧
      (∀ TR, hemoAtTRSmooth R TR = initHemo R) ∧
      (∀ TR, boldWindowSmooth R TR = boldFormula R.P (R.boldNoise TR) (initHemo R))) := by
  refine ⟨?_, ?_, ?_⟩
  · intro tr step hstep htr
    unfold stepsPerTR truncInt
    rw [if_pos (div_nonneg htr hstep.le)]
  · intro tr step htr hlt
    have hstep : 0 < step := lt_trans htr hlt
    have h0 : 0 ≤ tr / step := div_nonneg htr.le hstep.le
    unfold stepsPerTR truncInt
    rw [if_pos h0]
    apply Int.floor_eq_zero_iff.2
    exact ⟨h0, (div_lt_one hstep).2 hlt⟩
  · intro nn ns R hR
    have hE : ∀ TR st, EhistSmooth R TR st = 0 := by
      intro TR st
      unfold EhistSmooth
      rw [hR]
      exact if_neg fun hc => Nat.not_lt_zero st hc.2
    have hI : ∀ TR st, IhistSmooth R TR st = 0 := by
      intro TR st
      unfold IhistSmooth
      rw [hR]
      exact if_neg fun hc => Nat.not_lt_zero st hc.2
    have hH : ∀ TR, hemoAtTRSmooth R TR = initHemo R := by
      intro TR
      unfold hemoAtTRSmooth
      rw [hR, Nat.mul_zero]
      rfl
    exact ⟨hE, hI, hH, fun TR => by unfold boldWindowSmooth; rw [hH TR]⟩

/-- C10 witness: a step size of 2 with tr = 1 yields zero fine steps. -/
theorem claim_C10_truncated_steps_witness : stepsPerTR 1 2 = 0 :=
  claim_C10_truncated_steps.2.1 1 2 (by norm_num) (by norm_num)

/-- C3: h_tf returns exactly (|a*z-b| + 1e-5) / (d*1e-5 + |1 - exp(-d*(a*z-b))|),
and for d > 0 this value is strictly positive (hence non-negative). -/
theorem h_tf_formula_and_pos (a b d z : ℝ) (hd : 0 < d) :
    h_tf a b d z =
      (|a * z - b| + 0.00001) / (d * 0.00001 + |1 - Real.exp (-d * (a * z - b))|) ∧
    0 < h_tf a b d z := by
  constructor
  · unfold h_tf
    ring_nf
  · unfold h_tf
    apply div_pos
    · positivity
    · have h1 : (0:ℝ) < 0.00001 * d := by positivity
      have h2 : (0:ℝ) ≤ |1.0000 - Real.exp (-d * (a * z - b))| := abs_nonneg _
      linarith

/-- C3 witness: instantiation at a = 1, b = 0, d = 1, z = 0. -/
theorem h_tf_formula_and_pos_witness :
    h_tf 1 0 1 0 =
      (|1 * 0 - 0| + 0.00001) / (1 * 0.00001 + |1 - Real.exp (-1 * (1 * 0 - 0))|) ∧
    0 < h_tf 1 0 1 0 :=
  h_tf_formula_and_pos 1 0 1 0 (by norm_num)
